import Mathlib

/-!
Verification development for `berserk/utils.py`: a shallow embedding of the
module's data-transformation helpers (time conversion, functional wrappers,
and the path-based adapter built by `build_adapter`), together with theorems
settling the specified properties.
-/

namespace Berserk

/-- JSON-like values, as produced by deserialising API responses: Python
`None`, booleans, integers, strings, lists and (ordered) dicts with string
keys. -/
inductive Value where
  | vnone : Value
  | vbool : Bool → Value
  | vint : Int → Value
  | vstr : String → Value
  | vlist : List Value → Value
  | vobj : List (String × Value) → Value
  deriving Repr

/-- Decidable equality for `Value` (structural, matching Python `==` on the
JSON fragment we model). -/
def Value.beq : Value → Value → Bool
  | .vnone, .vnone => true
  | .vbool a, .vbool b => a == b
  | .vint a, .vint b => a == b
  | .vstr a, .vstr b => a == b
  | .vlist a, .vlist b => beqList a b
  | .vobj a, .vobj b => beqObj a b
  | _, _ => false
where
  beqList : List Value → List Value → Bool
    | [], [] => true
    | x :: xs, y :: ys => Value.beq x y && beqList xs ys
    | _, _ => false
  beqObj : List (String × Value) → List (String × Value) → Bool
    | [], [] => true
    | (k₁, v₁) :: xs, (k₂, v₂) :: ys => k₁ == k₂ && Value.beq v₁ v₂ && beqObj xs ys
    | _, _ => false

/-- Errors a Python operation in this module can raise: `KeyError` (the only
one the module ever catches) and everything else (`TypeError` from indexing a
non-dict, etc.), which always propagates. -/
inductive PyErr where
  | keyError : PyErr
  | typeError : PyErr
  deriving DecidableEq, Repr

/-- First-match lookup in an ordered dict (Python dict keys are unique, so
first match is the match). -/
def dlookup : List (String × Value) → String → Option Value
  | [], _ => none
  | (k', v) :: rest, k => if k' = k then some v else dlookup rest k

/-- Python `d[k] = v` on an ordered dict: update in place (keeping the key's
position) when present, append otherwise. -/
def dinsert : List (String × Value) → String → Value → List (String × Value)
  | [], k, v => [(k, v)]
  | (k', v') :: rest, k, v =>
      if k' = k then (k, v) :: rest else (k', v') :: dinsert rest k v

/-- Python `data[key]` for a string key: a dict yields the value or raises
`KeyError`; any non-dict value (scalar, list, `None`) raises a `TypeError`-like
error instead. -/
def getItem : Value → String → Except PyErr Value
  | .vobj l, k =>
      match dlookup l k with
      | some v => Except.ok v
      | none => Except.error PyErr.keyError
  | _, _ => Except.error PyErr.typeError

/-- Worker for Python `location.split(sep)` with a non-empty separator:
scan left to right; at each position where `sep` occurs, emit the chunk
accumulated so far and skip the separator. The fuel argument (the input
length suffices, since every step consumes at least one character) keeps the
recursion structural. -/
def pySplitAux : Nat → List Char → List Char → List Char → List (List Char)
  | _, _, acc, [] => [acc.reverse]
  | 0, _, acc, rest => [acc.reverse ++ rest]
  | fuel + 1, sep, acc, c :: rest =>
      if sep.isPrefixOf (c :: rest) then
        acc.reverse :: pySplitAux fuel sep [] ((c :: rest).drop sep.length)
      else
        pySplitAux fuel sep (c :: acc) rest

/-- Python `location.split(sep)` for a non-empty separator (`split` raises
`ValueError` on an empty separator; `build_adapter`'s default is `"."`). -/
def pySplit (sep location : String) : List String :=
  (pySplitAux location.data.length sep.data [] location.data).map String.mk

/-- `get(data, location)` from `build_adapter`: split `location` on `sep` and
run `data = data[key]` for each key in order. -/
def get (sep : String) (data : Value) (location : String) : Except PyErr Value :=
  (pySplit sep location).foldlM getItem data

/-- The loop body of `adapter`: process the remaining `(key, loc)` pairs of
`mapper`, accumulating `result`; `result[key] = get(data, loc)` with a
`try/except KeyError` that either skips the field or fills it with `default`.
Any other error propagates. -/
def adaptGo (sep : String) (data : Value) (default : Value) (fill : Bool) :
    List (String × String) → List (String × Value) →
    Except PyErr (List (String × Value))
  | [], result => Except.ok result
  | (key, loc) :: rest, result =>
      match get sep data loc with
      | Except.ok v => adaptGo sep data default fill rest (dinsert result key v)
      | Except.error PyErr.keyError =>
          if fill then adaptGo sep data default fill rest (dinsert result key default)
          else adaptGo sep data default fill rest result
      | Except.error PyErr.typeError => Except.error PyErr.typeError

/-- The adapter returned by `build_adapter(mapper, sep)`, applied to a
document: `adapter(data, default, fill)`. -/
def adapter (mapper : List (String × String)) (sep : String) (data : Value)
    (default : Value) (fill : Bool) : Except PyErr (List (String × Value)) :=
  adaptGo sep data default fill mapper []

/-! ### Time conversion (`datetime_from_seconds`, `datetime_from_str`) -/

/-- A timezone-aware `datetime` value: calendar fields plus whether it carries
the UTC timezone (`tzinfo=timezone.utc`). -/
structure Instant where
  year : Nat
  month : Nat
  day : Nat
  hour : Nat
  minute : Nat
  second : Nat
  microsecond : Nat
  utc : Bool
  deriving DecidableEq, Repr

/-- Gregorian civil date from a count of days since 1970-01-01 (the proleptic
Gregorian calendar arithmetic that `datetime.fromtimestamp` performs). -/
def civilFromDays (z : Int) : Int × Nat × Nat :=
  let z' := z + 719468
  let era := z'.fdiv 146097
  let doe := (z' - era * 146097).toNat
  let yoe := (doe - doe / 1460 + doe / 36524 - doe / 146096) / 365
  let y : Int := (yoe : Int) + era * 400
  let doy := doe - (365 * yoe + yoe / 4 - yoe / 100)
  let mp := (5 * doy + 2) / 153
  let d := doy - (153 * mp + 2) / 5 + 1
  let m := if mp < 10 then mp + 3 else mp - 9
  (y + (if m ≤ 2 then 1 else 0), m, d)

/-- `datetime_from_seconds(ts)` = `datetime.fromtimestamp(ts, timezone.utc)`,
for an integral number of seconds since the epoch (integral floats convert
exactly, so the float/int distinction vanishes; restricted to timestamps whose
year is within `datetime`'s supported range). -/
def datetime_from_seconds (ts : Int) : Instant :=
  let days := ts.fdiv 86400
  let sod := (ts.emod 86400).toNat
  let c := civilFromDays days
  { year := c.1.toNat, month := c.2.1, day := c.2.2,
    hour := sod / 3600, minute := sod % 3600 / 60, second := sod % 60,
    microsecond := 0, utc := true }

/-- ASCII decimal digit. `strptime` compiles its pattern without `re.ASCII`,
so a `\d` position also matches non-ASCII Unicode decimal digits; the
embedding models the ASCII fragment, on which it is exact, and the
characterization theorem carries an all-ASCII hypothesis accordingly. -/
def isDig (c : Char) : Bool := '0' ≤ c && c ≤ '9'

/-- Numeric value of a decimal digit character. -/
def dval (c : Char) : Nat := c.toNat - 48

/-- Read exactly four digits (the `%Y` pattern `\d\d\d\d`). -/
def read4 : List Char → Option (Nat × List Char)
  | a :: b :: c :: d :: rest =>
      if isDig a && isDig b && isDig c && isDig d then
        some (((dval a * 10 + dval b) * 10 + dval c) * 10 + dval d, rest)
      else none
  | _ => none

/-- Read one or two digits, maximal munch, returning the digit count, the
value and the rest. In the format at hand every 1-or-2-digit field is followed
by a non-digit literal, so maximal munch agrees with the regex alternations
(`1[0-2]|0[1-9]|[1-9]` etc.) after backtracking. -/
def read12 : List Char → Option (Nat × Nat × List Char)
  | c₁ :: c₂ :: rest =>
      if isDig c₁ then
        if isDig c₂ then some (2, dval c₁ * 10 + dval c₂, rest)
        else some (1, dval c₁, c₂ :: rest)
      else none
  | [c₁] => if isDig c₁ then some (1, dval c₁, []) else none
  | [] => none

/-- Read the `%d` day field. Its regex `3[0-1]|[1-2]\d|0[1-9]|[1-9]| [1-9]`
has one alternative more than the other 1-or-2-digit fields: a space-padded
single digit `' [1-9]'` (e.g. `" 5"`), whose `int()` value ignores the
leading space. A digit-led input never uses that alternative, so it reduces
to `read12` there. Returns the digit count (1 for the space-padded form,
whose value constraint 1–9 coincides with the one-digit range check), the
value and the rest. -/
def readDay : List Char → Option (Nat × Nat × List Char)
  | c₀ :: c :: rest =>
      if c₀ = ' ' then
        if isDig c && decide (1 ≤ dval c) then some (1, dval c, rest) else none
      else read12 (c₀ :: c :: rest)
  | s => read12 s

/-- Read 1–6 fraction digits (`%f` is `[0-9]{1,6}`, greedy), returning the
count, the value and the rest. -/
def readFrac : List Char → Option (Nat × Nat × List Char) :=
  fun cs =>
    let digs := (cs.takeWhile isDig).take 6
    if digs.isEmpty then none
    else some (digs.length, digs.foldl (fun a c => a * 10 + dval c) 0,
               cs.drop digs.length)

/-- Expect one literal character. -/
def expectCh (c : Char) : List Char → Option (List Char)
  | c' :: rest => if c' = c then some rest else none
  | [] => none

/-- Expect a literal letter case-insensitively: `strptime` compiles its
pattern with `re.IGNORECASE`, so the literals `T` and `Z` also match `t` and
`z`. -/
def expectChCI (lower upper : Char) : List Char → Option (List Char)
  | c' :: rest => if c' = lower ∨ c' = upper then some rest else none
  | [] => none

/-- Value constraint the regex alternation places on a 1-or-2-digit field:
`lo1`–`hi1` for one digit, `lo2`–`hi2` for two digits (two-digit `00` is only
allowed when `lo2 = 0`). -/
def fieldOk (n v lo1 hi1 lo2 hi2 : Nat) : Bool :=
  if n = 1 then lo1 ≤ v && v ≤ hi1 else lo2 ≤ v && v ≤ hi2

/-- The regex-matching phase of
`datetime.strptime(s, "%Y-%m-%dT%H:%M:%S.%fZ")`: the whole string must match
`\d\d\d\d - (1[0-2]|0[1-9]|[1-9]) - (3[01]|[12]\d|0[1-9]|[1-9]| [1-9]) T
(2[0-3]|[0-1]\d|\d) : ([0-5]\d|\d) : (6[0-1]|[0-5]\d|\d) . [0-9]{1,6} Z`
(spaces added for readability except inside the day alternation, whose last
alternative is a literal space followed by a nonzero digit; `T`/`Z`
case-insensitive). Yields
`(year, month, day, hour, minute, second, microsecond)`, with the fraction
right-padded with zeros to six digits as `strptime` does for `%f`. Digits are
modelled as ASCII `0`–`9`; without `re.ASCII` the `\d` positions also admit
non-ASCII Unicode decimal digits, which this embedding does not cover — the
characterization theorem is therefore stated for all-ASCII inputs, where the
model is exact. -/
def strptimeFields (s : List Char) : Option (Nat × Nat × Nat × Nat × Nat × Nat × Nat) := do
  let (y, r) ← read4 s
  let r ← expectCh '-' r
  let (nmo, mo, r) ← read12 r
  if fieldOk nmo mo 1 9 1 12 then
    let r ← expectCh '-' r
    let (nd, d, r) ← readDay r
    if fieldOk nd d 1 9 1 31 then
      let r ← expectChCI 't' 'T' r
      let (nh, h, r) ← read12 r
      if fieldOk nh h 0 9 0 23 then
        let r ← expectCh ':' r
        let (nmi, mi, r) ← read12 r
        if fieldOk nmi mi 0 9 0 59 then
          let r ← expectCh ':' r
          let (ns, sec, r) ← read12 r
          if fieldOk ns sec 0 9 0 61 then
            let r ← expectCh '.' r
            let (nf, f, r) ← readFrac r
            let r ← expectChCI 'z' 'Z' r
            if r = [] then
              some (y, mo, d, h, mi, sec, f * 10 ^ (6 - nf))
            else none
          else none
        else none
      else none
    else none
  else none

/-- Days in a month of the proleptic Gregorian calendar. -/
def daysInMonth (y m : Nat) : Nat :=
  if m = 2 then
    if y % 4 = 0 && (y % 100 ≠ 0 || y % 400 = 0) then 29 else 28
  else if m = 4 ∨ m = 6 ∨ m = 9 ∨ m = 11 then 30
  else 31

/-- The validation the `datetime(...)` constructor performs on the matched
fields (`MINYEAR ≤ year ≤ MAXYEAR`, a real calendar day, `second ≤ 59`);
violation raises `ValueError`, which propagates out of `strptime`. -/
def validDatetime (y mo d h mi s us : Nat) : Bool :=
  1 ≤ y && y ≤ 9999 && 1 ≤ mo && mo ≤ 12 && 1 ≤ d && d ≤ daysInMonth y mo &&
    h ≤ 23 && mi ≤ 59 && s ≤ 59 && us ≤ 999999

/-- `datetime_from_str(s)`: `strptime` with the fixed format, then
`.replace(tzinfo=timezone.utc)`; `none` models the `ValueError` that
propagates on any mismatch. Exact on all-ASCII inputs (see
`strptimeFields` on non-ASCII Unicode digits). -/
def datetime_from_str (s : String) : Option Instant :=
  (strptimeFields s.data).bind fun f =>
    if validDatetime f.1 f.2.1 f.2.2.1 f.2.2.2.1 f.2.2.2.2.1 f.2.2.2.2.2.1 f.2.2.2.2.2.2 then
      some { year := f.1, month := f.2.1, day := f.2.2.1, hour := f.2.2.2.1,
             minute := f.2.2.2.2.1, second := f.2.2.2.2.2.1,
             microsecond := f.2.2.2.2.2.2, utc := true }
    else none

/-- Written from the spec's words, for comparison with `datetime_from_str`:
"parses exactly the format `%Y-%m-%dT%H:%M:%S.%fZ` (4-digit year, 2-digit
month/day/hour/minute/second, fractional seconds, literal trailing `Z`)" —
a strict reading where every numeric field has its full width, the fraction is
1–6 digits, and `T` and `Z` are the exact uppercase literals. -/
def specStrictFormat (s : String) : Bool :=
  match s.data with
  | y₁ :: y₂ :: y₃ :: y₄ :: d₁ :: mo₁ :: mo₂ :: d₂ :: da₁ :: da₂ :: t ::
      h₁ :: h₂ :: c₁ :: mi₁ :: mi₂ :: c₂ :: s₁ :: s₂ :: dot :: rest =>
      isDig y₁ && isDig y₂ && isDig y₃ && isDig y₄ && d₁ == '-' &&
      isDig mo₁ && isDig mo₂ && d₂ == '-' && isDig da₁ && isDig da₂ &&
      t == 'T' && isDig h₁ && isDig h₂ && c₁ == ':' && isDig mi₁ && isDig mi₂ &&
      c₂ == ':' && isDig s₁ && isDig s₂ && dot == '.' &&
      (match rest.reverse with
       | z :: fracRev =>
           z == 'Z' && !fracRev.isEmpty && fracRev.length ≤ 6 &&
             fracRev.all isDig
       | [] => false)
  | _ => false

/-! ### Functional wrappers (`inner`, `listing`, `noop`) -/

/-- The `convert` closure returned by `inner(func, *keys)`: for each name in
`keys` in order, run `data[k] = func(data[k])` inside `try/except KeyError`.
The lookup `data[k]` raises `KeyError` when the key is absent, and `func`
itself may raise; a `KeyError` from either is caught (`pass`), while any
other error propagates. `func` is modelled as a fallible function so that its
own exceptions are visible. -/
def convert (func : Value → Except PyErr Value) (keys : List String) :
    List (String × Value) → Except PyErr (List (String × Value))
  | data =>
      keys.foldlM
        (fun d k =>
          match dlookup d k with
          | none => Except.ok d
          | some v =>
              match func v with
              | Except.ok v' => Except.ok (dinsert d k v')
              | Except.error PyErr.keyError => Except.ok d
              | Except.error e => Except.error e)
        data

/-- The `convert` closure returned by `listing(func)`: start from an empty
list and append `func(item)` for each item. -/
def listingConvert {α β : Type} (func : α → β) (items : List α) : List β :=
  items.foldl (fun result item => result ++ [func item]) []

/-- `noop(arg)`: the identity. -/
def noop {α : Type} (arg : α) : α := arg

/-! ### Sequencing adapter calls (for the statelessness claim) -/

/-- The state a closure built by `build_adapter` closes over: `mapper` and
`sep`, fixed at construction. The Python body contains no assignment to
either, so a call leaves the state unchanged; `adaptCalls` threads the state
through a sequence of calls to make that explicit. -/
structure AdapterState where
  mapper : List (String × String)
  sep : String

/-- Apply one adapter call given the closure state (the body of `adapter`
reads `mapper` and `sep` and writes neither). -/
def applyAdapter (st : AdapterState) (c : Value × Value × Bool) :
    Except PyErr (List (String × Value)) × AdapterState :=
  (adapter st.mapper st.sep c.1 c.2.1 c.2.2, st)

/-- Run a sequence of calls `(document, default, fill)` against one adapter
instance, threading its closure state. -/
def adaptCalls (st : AdapterState) :
    List (Value × Value × Bool) →
    List (Except PyErr (List (String × Value))) × AdapterState
  | [] => ([], st)
  | c :: rest =>
      let r := applyAdapter st c
      let t := adaptCalls r.2 rest
      (r.1 :: t.1, t.2)

/-! ### Derived notions used to state the adapter theorems -/

/-- The contribution of one `(key, loc)` mapping entry to the adapter's
result, assuming traversal does not hit a type error: the extracted value on
success, the default (under `fill`) or nothing on a missing key. -/
def fieldVal (sep : String) (data default : Value) (fill : Bool)
    (p : String × String) : Option (String × Value) :=
  match get sep data p.2 with
  | Except.ok v => some (p.1, v)
  | Except.error PyErr.keyError => if fill then some (p.1, default) else none
  | Except.error PyErr.typeError => none

/-- The record the adapter produces on a successful run: each mapping entry's
contribution, in mapping order. -/
def adaptedFields (sep : String) (data default : Value) (fill : Bool)
    (mapper : List (String × String)) : List (String × Value) :=
  mapper.filterMap (fieldVal sep data default fill)

/-- Two documents are equivalent when they differ only in the order of keys
inside objects (and in unreachable list contents): scalars must be equal, and
objects must associate every key to equivalent values. Captures "the same
document with its dict keys in a different order". -/
inductive EquivVal : Value → Value → Prop where
  | vnone : EquivVal Value.vnone Value.vnone
  | vbool (b : Bool) : EquivVal (Value.vbool b) (Value.vbool b)
  | vint (n : Int) : EquivVal (Value.vint n) (Value.vint n)
  | vstr (s : String) : EquivVal (Value.vstr s) (Value.vstr s)
  | vlist (l₁ l₂ : List Value) : EquivVal (Value.vlist l₁) (Value.vlist l₂)
  | vobj (l₁ l₂ : List (String × Value))
      (h : ∀ k, Option.Rel EquivVal (dlookup l₁ k) (dlookup l₂ k)) :
      EquivVal (Value.vobj l₁) (Value.vobj l₂)

/-- Relating the outcomes of one lookup step on two equivalent documents:
equal errors, or equivalent extracted values. -/
def ExceptRelVal : Except PyErr Value → Except PyErr Value → Prop
  | Except.ok v₁, Except.ok v₂ => EquivVal v₁ v₂
  | Except.error e₁, Except.error e₂ => e₁ = e₂
  | _, _ => False

/-- Numeric value of a digit string, most significant first (what `int(...)`
computes on the matched groups). -/
def natOfDigits (cs : List Char) : Nat :=
  cs.foldl (fun a c => a * 10 + dval c) 0

/-- Declarative form of one 1-or-2-digit regex field: all digits, and the
value within `lo1`–`hi1` when one digit, `lo2`–`hi2` when two digits. -/
def digitField (cs : List Char) (lo1 hi1 lo2 hi2 : Nat) : Prop :=
  cs.all isDig = true ∧
    ((cs.length = 1 ∧ lo1 ≤ natOfDigits cs ∧ natOfDigits cs ≤ hi1) ∨
     (cs.length = 2 ∧ lo2 ≤ natOfDigits cs ∧ natOfDigits cs ≤ hi2))

/-- Declarative form of the `%d` day group: a 1-or-2-digit field in the
regex's ranges, or the space-padded alternative `' [1-9]'` — a space followed
by one nonzero digit. -/
def dayField (cs : List Char) : Prop :=
  digitField cs 1 9 1 31 ∨ ∃ c, cs = [' ', c] ∧ isDig c = true ∧ 1 ≤ dval c

/-- `int()` applied to the matched day group: a leading space (from the
space-padded alternative) is ignored. -/
def dayVal : List Char → Nat
  | [] => 0
  | c :: rest => if c = ' ' then natOfDigits rest else natOfDigits (c :: rest)

/-- An ASCII character. On all-ASCII strings the `strptime` model is exact;
outside ASCII, `\d` (compiled without `re.ASCII`) also matches Unicode
decimal digits, which the model does not cover. -/
def isAsciiChar (c : Char) : Bool := c.toNat ≤ 127

/-- Declarative characterisation of the strings
`datetime.strptime(s, "%Y-%m-%dT%H:%M:%S.%fZ")` accepts: a decomposition into
a 4-digit year, 1-or-2-digit month/hour/minute/second fields within the
regex's ranges, a day that may additionally be space-padded (`' [1-9]'`),
a 1–6 digit fraction, the literals `-`, `:`, `.` and case-insensitive
`T`/`Z` — whose numeric components survive the `datetime` constructor's
validation. Digits are ASCII; see `strptimeFields` for the scope note on
non-ASCII Unicode digits. -/
def LenientFormatSpec (s : String) : Prop :=
  ∃ (ys ms ds hs mis ss fs : List Char) (tc zc : Char),
    s.data = ys ++ '-' :: (ms ++ '-' :: (ds ++ tc :: (hs ++ ':' ::
      (mis ++ ':' :: (ss ++ '.' :: (fs ++ [zc]))))))
    ∧ ys.length = 4 ∧ ys.all isDig = true
    ∧ digitField ms 1 9 1 12
    ∧ dayField ds
    ∧ digitField hs 0 9 0 23
    ∧ digitField mis 0 9 0 59
    ∧ digitField ss 0 9 0 61
    ∧ 1 ≤ fs.length ∧ fs.length ≤ 6 ∧ fs.all isDig = true
    ∧ (tc = 't' ∨ tc = 'T') ∧ (zc = 'z' ∨ zc = 'Z')
    ∧ validDatetime (natOfDigits ys) (natOfDigits ms) (dayVal ds)
        (natOfDigits hs) (natOfDigits mis) (natOfDigits ss)
        (natOfDigits fs * 10 ^ (6 - fs.length)) = true

/-! ### Dict lemmas -/

theorem dinsert_of_not_mem (l : List (String × Value)) (k : String) (v : Value)
    (h : k ∉ l.map Prod.fst) : dinsert l k v = l ++ [(k, v)] := by
  induction l with
  | nil => rfl
  | cons p rest ih =>
      obtain ⟨k', v'⟩ := p
      simp only [List.map_cons, List.mem_cons] at h
      push_neg at h
      simp only [dinsert, if_neg (Ne.symm h.1), ih h.2, List.cons_append]

theorem dlookup_eq_none_iff (l : List (String × Value)) (k : String) :
    dlookup l k = none ↔ k ∉ l.map Prod.fst := by
  induction l with
  | nil => simp [dlookup]
  | cons p rest ih =>
      obtain ⟨k', v'⟩ := p
      by_cases hk : k' = k
      · subst hk
        simp [dlookup]
      · simp [dlookup, hk, ih, Ne.symm hk]

theorem dlookup_append_right (l₁ l₂ : List (String × Value)) (k : String)
    (h : k ∉ l₁.map Prod.fst) : dlookup (l₁ ++ l₂) k = dlookup l₂ k := by
  induction l₁ with
  | nil => rfl
  | cons p rest ih =>
      obtain ⟨k', v'⟩ := p
      simp only [List.map_cons, List.mem_cons] at h
      push_neg at h
      simp only [List.cons_append, dlookup, if_neg (Ne.symm h.1)]
      exact ih h.2

theorem dinsert_map_fst_of_rel (l₁ l₂ : List (String × Value)) (k : String)
    (v₁ v₂ : Value) (h : l₁.map Prod.fst = l₂.map Prod.fst) :
    (dinsert l₁ k v₁).map Prod.fst = (dinsert l₂ k v₂).map Prod.fst := by
  induction l₁ generalizing l₂ with
  | nil =>
      match l₂ with
      | [] => rfl
      | q :: l₂ => simp at h
  | cons p rest ih =>
      match l₂ with
      | [] => simp at h
      | q :: l₂ =>
          obtain ⟨k', v'⟩ := p
          obtain ⟨k'', v''⟩ := q
          simp only [List.map_cons, List.cons.injEq] at h
          obtain ⟨h1, h2⟩ := h
          subst h1
          by_cases hk : k' = k
          · simp [dinsert, hk, h2]
          · simp only [dinsert, if_neg hk, List.map_cons, h2,
              List.cons.injEq, true_and]
            exact ih l₂ h2

/-! ### Adapter run lemmas -/

theorem adaptGo_eq_ok (sep : String) (data default : Value) (fill : Bool)
    (rest : List (String × String)) (acc : List (String × Value))
    (hte : ∀ p ∈ rest, get sep data p.2 ≠ Except.error PyErr.typeError)
    (hfresh : ∀ p ∈ rest, p.1 ∉ acc.map Prod.fst)
    (hnd : (rest.map Prod.fst).Nodup) :
    adaptGo sep data default fill rest acc
      = Except.ok (acc ++ adaptedFields sep data default fill rest) := by
  revert hte hfresh hnd
  induction rest generalizing acc with
  | nil => intro _ _ _; simp [adaptGo, adaptedFields]
  | cons p rest ih =>
      intro hte hfresh hnd
      obtain ⟨key, loc⟩ := p
      simp only [List.map_cons, List.nodup_cons] at hnd
      have hukey : ∀ q ∈ rest, ∀ v, q.1 ∉ (acc ++ [(key, v)]).map Prod.fst := by
        intro q hq v
        have h1 : q.1 ∉ acc.map Prod.fst := hfresh q (List.mem_cons_of_mem _ hq)
        have h2 : q.1 ≠ key := by
          intro hqe
          exact hnd.1 (hqe ▸ List.mem_map_of_mem Prod.fst hq)
        simp [h1, h2]
      have hte' : ∀ p ∈ rest, get sep data p.2 ≠ Except.error PyErr.typeError :=
        fun p hp => hte p (List.mem_cons_of_mem _ hp)
      have hkey_fresh : key ∉ acc.map Prod.fst :=
        hfresh (key, loc) (List.mem_cons_self _ _)
      cases hget : get sep data loc with
      | ok v =>
          simp only [adaptGo, hget]
          rw [dinsert_of_not_mem _ _ _ hkey_fresh,
            ih _ hte' (fun q hq => hukey q hq v) hnd.2]
          simp [adaptedFields, List.filterMap_cons, fieldVal, hget]
      | error e =>
          cases e with
          | keyError =>
              simp only [adaptGo, hget]
              by_cases hfill : fill = true
              · rw [if_pos hfill, dinsert_of_not_mem _ _ _ hkey_fresh,
                  ih _ hte' (fun q hq => hukey q hq default) hnd.2]
                simp [adaptedFields, List.filterMap_cons, fieldVal, hget, hfill]
              · rw [if_neg hfill,
                  ih _ hte' (fun q hq => hfresh q (List.mem_cons_of_mem _ hq)) hnd.2]
                simp [adaptedFields, List.filterMap_cons, fieldVal, hget, hfill]
          | typeError =>
              exact absurd hget (hte (key, loc) (List.mem_cons_self _ _))

theorem adaptGo_typeError (sep : String) (data default : Value) (fill : Bool)
    (rest : List (String × String)) (acc : List (String × Value))
    (key loc : String) (hmem : (key, loc) ∈ rest)
    (herr : get sep data loc = Except.error PyErr.typeError) :
    adaptGo sep data default fill rest acc = Except.error PyErr.typeError := by
  revert hmem
  induction rest generalizing acc with
  | nil => intro hmem; cases hmem
  | cons p rest ih =>
      intro hmem
      obtain ⟨k, l⟩ := p
      rcases List.mem_cons.mp hmem with heq | htail
      · obtain ⟨hk, hl⟩ := Prod.mk.injEq .. ▸ heq
        cases heq
        simp only [adaptGo, herr]
      · cases hget : get sep data l with
        | ok v => simp only [adaptGo, hget]; exact ih _ htail
        | error e =>
            cases e with
            | keyError =>
                simp only [adaptGo, hget]
                by_cases hfill : fill = true
                · rw [if_pos hfill]; exact ih _ htail
                · rw [if_neg hfill]; exact ih _ htail
            | typeError => simp only [adaptGo, hget]

theorem adaptGo_ne_keyError (sep : String) (data default : Value) (fill : Bool)
    (rest : List (String × String)) (acc : List (String × Value)) :
    adaptGo sep data default fill rest acc ≠ Except.error PyErr.keyError := by
  induction rest generalizing acc with
  | nil => simp [adaptGo]
  | cons p rest ih =>
      obtain ⟨k, l⟩ := p
      cases hget : get sep data l with
      | ok v => simp only [adaptGo, hget]; exact ih _
      | error e =>
          cases e with
          | keyError =>
              simp only [adaptGo, hget]
              by_cases hfill : fill = true
              · rw [if_pos hfill]; exact ih _
              · rw [if_neg hfill]; exact ih _
          | typeError => simp [adaptGo, hget]

theorem adaptGo_ok_no_typeError (sep : String) (data default : Value)
    (fill : Bool) (rest : List (String × String)) (acc r : List (String × Value))
    (hok : adaptGo sep data default fill rest acc = Except.ok r) :
    ∀ p ∈ rest, get sep data p.2 ≠ Except.error PyErr.typeError := by
  revert hok
  induction rest generalizing acc with
  | nil => intro _ p hp; cases hp
  | cons q rest ih =>
      intro hok p hp
      obtain ⟨k, l⟩ := q
      cases hget : get sep data l with
      | ok v =>
          simp only [adaptGo, hget] at hok
          rcases List.mem_cons.mp hp with heq | htail
          · cases heq; simp [hget]
          · exact ih _ hok p htail
      | error e =>
          cases e with
          | keyError =>
              simp only [adaptGo, hget] at hok
              rcases List.mem_cons.mp hp with heq | htail
              · cases heq; simp [hget]
              · by_cases hfill : fill = true
                · rw [if_pos hfill] at hok; exact ih _ hok p htail
                · rw [if_neg hfill] at hok; exact ih _ hok p htail
          | typeError =>
              simp only [adaptGo, hget] at hok
              exact Except.noConfusion hok

theorem fieldVal_fst (sep : String) (data default : Value) (fill : Bool)
    (p : String × String) (q : String × Value)
    (h : fieldVal sep data default fill p = some q) : q.1 = p.1 := by
  unfold fieldVal at h
  cases hget : get sep data p.2 with
  | ok v => rw [hget] at h; cases h; rfl
  | error e =>
      cases e with
      | keyError =>
          rw [hget] at h
          by_cases hfill : fill = true
          · rw [if_pos hfill] at h; cases h; rfl
          · rw [if_neg hfill] at h; cases h
      | typeError => rw [hget] at h; cases h

theorem dlookup_filterMap_not_mem (sep : String) (data default : Value)
    (fill : Bool) (l : List (String × String)) (k : String)
    (h : k ∉ l.map Prod.fst) :
    dlookup (l.filterMap (fieldVal sep data default fill)) k = none := by
  induction l with
  | nil => rfl
  | cons p rest ih =>
      simp only [List.map_cons, List.mem_cons] at h
      push_neg at h
      rw [List.filterMap_cons]
      cases hf : fieldVal sep data default fill p with
      | none => exact ih h.2
      | some q =>
          obtain ⟨qk, qv⟩ := q
          have hq : qk = p.1 := fieldVal_fst _ _ _ _ _ _ hf
          simp only [dlookup]
          rw [if_neg (hq ▸ Ne.symm h.1)]
          exact ih h.2

theorem dlookup_adaptedFields (sep : String) (data default : Value)
    (fill : Bool) (mapper : List (String × String)) (key loc : String)
    (hnd : (mapper.map Prod.fst).Nodup) (hmem : (key, loc) ∈ mapper) :
    dlookup (adaptedFields sep data default fill mapper) key
      = (fieldVal sep data default fill (key, loc)).map Prod.snd := by
  revert hmem
  induction mapper with
  | nil => intro hmem; cases hmem
  | cons p rest ih =>
      intro hmem
      simp only [List.map_cons, List.nodup_cons] at hnd
      rcases List.mem_cons.mp hmem with heq | htail
      · cases heq
        simp only [adaptedFields, List.filterMap_cons]
        cases hf : fieldVal sep data default fill (key, loc) with
        | none =>
            rw [Option.map_none']
            exact dlookup_filterMap_not_mem _ _ _ _ _ _ hnd.1
        | some q =>
            obtain ⟨qk, qv⟩ := q
            have hq : qk = key := fieldVal_fst _ _ _ _ _ _ hf
            simp only [dlookup]
            rw [if_pos hq]
            rfl
      · have hne : p.1 ≠ key := by
          intro hpe
          exact hnd.1 (hpe ▸ List.mem_map_of_mem Prod.fst htail)
        simp only [adaptedFields, List.filterMap_cons]
        cases hf : fieldVal sep data default fill p with
        | none => exact ih hnd.2 htail
        | some q =>
            obtain ⟨qk, qv⟩ := q
            have hq : qk = p.1 := fieldVal_fst _ _ _ _ _ _ hf
            simp only [dlookup]
            rw [if_neg (hq ▸ hne)]
            exact ih hnd.2 htail

theorem adaptedFields_map_fst (sep : String) (data default : Value)
    (fill : Bool) (mapper : List (String × String)) :
    (adaptedFields sep data default fill mapper).map Prod.fst
      = (mapper.filter fun p =>
          (fieldVal sep data default fill p).isSome).map Prod.fst := by
  induction mapper with
  | nil => rfl
  | cons p rest ih =>
      simp only [adaptedFields, List.filterMap_cons, List.filter_cons] at ih ⊢
      cases hf : fieldVal sep data default fill p with
      | none => simpa [hf] using ih
      | some q =>
          obtain ⟨qk, qv⟩ := q
          have hq : qk = p.1 := fieldVal_fst _ _ _ _ _ _ hf
          simp [hf, hq, ih]

theorem getItem_equiv (d₁ d₂ : Value) (h : EquivVal d₁ d₂) (k : String) :
    ExceptRelVal (getItem d₁ k) (getItem d₂ k) := by
  cases h with
  | vnone => exact rfl
  | vbool b => exact rfl
  | vint n => exact rfl
  | vstr s => exact rfl
  | vlist l₁ l₂ => exact rfl
  | vobj l₁ l₂ hl =>
      have hrel := hl k
      cases hd₁ : dlookup l₁ k with
      | none =>
          rw [hd₁] at hrel
          cases hd₂ : dlookup l₂ k with
          | none => simp only [getItem, hd₁, hd₂]; exact rfl
          | some v₂ => rw [hd₂] at hrel; cases hrel
      | some v₁ =>
          rw [hd₁] at hrel
          cases hd₂ : dlookup l₂ k with
          | none => rw [hd₂] at hrel; cases hrel
          | some v₂ =>
              rw [hd₂] at hrel
              cases hrel with
              | some hv => simp only [getItem, hd₁, hd₂]; exact hv

theorem foldlM_getItem_equiv (keys : List String) (d₁ d₂ : Value)
    (h : EquivVal d₁ d₂) :
    ExceptRelVal (keys.foldlM getItem d₁) (keys.foldlM getItem d₂) := by
  induction keys generalizing d₁ d₂ with
  | nil => exact h
  | cons k ks ih =>
      have hstep := getItem_equiv d₁ d₂ h k
      cases he₁ : getItem d₁ k with
      | ok v₁ =>
          cases he₂ : getItem d₂ k with
          | ok v₂ =>
              rw [he₁, he₂] at hstep
              simp only [List.foldlM_cons, he₁, he₂]
              exact ih v₁ v₂ hstep
          | error e₂ =>
              rw [he₁, he₂] at hstep
              simp only [ExceptRelVal] at hstep
      | error e₁ =>
          cases he₂ : getItem d₂ k with
          | ok v₂ =>
              rw [he₁, he₂] at hstep
              simp only [ExceptRelVal] at hstep
          | error e₂ =>
              rw [he₁, he₂] at hstep
              simp only [ExceptRelVal] at hstep
              subst hstep
              simp only [List.foldlM_cons, he₁, he₂]
              exact rfl

theorem get_equiv (sep : String) (d₁ d₂ : Value) (loc : String)
    (h : EquivVal d₁ d₂) : ExceptRelVal (get sep d₁ loc) (get sep d₂ loc) :=
  foldlM_getItem_equiv (pySplit sep loc) d₁ d₂ h

theorem fieldVal_isSome_equiv (sep : String) (d₁ d₂ default : Value)
    (fill : Bool) (p : String × String) (h : EquivVal d₁ d₂) :
    (fieldVal sep d₁ default fill p).isSome
      = (fieldVal sep d₂ default fill p).isSome := by
  have hrel := get_equiv sep d₁ d₂ p.2 h
  unfold fieldVal
  cases he₁ : get sep d₁ p.2 with
  | ok v₁ =>
      cases he₂ : get sep d₂ p.2 with
      | ok v₂ => rfl
      | error e₂ => rw [he₁, he₂] at hrel; simp only [ExceptRelVal] at hrel
  | error e₁ =>
      cases he₂ : get sep d₂ p.2 with
      | ok v₂ => rw [he₁, he₂] at hrel; simp only [ExceptRelVal] at hrel
      | error e₂ =>
          rw [he₁, he₂] at hrel
          simp only [ExceptRelVal] at hrel
          subst hrel
          rfl

theorem get_typeError_equiv (sep : String) (d₁ d₂ : Value) (loc : String)
    (h : EquivVal d₁ d₂)
    (he : get sep d₁ loc = Except.error PyErr.typeError) :
    get sep d₂ loc = Except.error PyErr.typeError := by
  have hrel := get_equiv sep d₁ d₂ loc h
  rw [he] at hrel
  cases he₂ : get sep d₂ loc with
  | ok v₂ => rw [he₂] at hrel; simp only [ExceptRelVal] at hrel
  | error e₂ =>
      rw [he₂] at hrel
      simp only [ExceptRelVal] at hrel
      rw [hrel]

theorem dlookup_isSome_mem (record : List (String × Value)) (k : String)
    (v : Value) (h : dlookup record k = some v) : k ∈ record.map Prod.fst := by
  by_contra hmem
  rw [(dlookup_eq_none_iff record k).mpr hmem] at h
  cases h

theorem dinsert_eq_map (record : List (String × Value)) (k : String) (w : Value)
    (hmem : k ∈ record.map Prod.fst) (hnd : (record.map Prod.fst).Nodup) :
    dinsert record k w
      = record.map fun p => if p.1 = k then (k, w) else p := by
  induction record with
  | nil => cases hmem
  | cons p rest ih =>
      obtain ⟨k', v'⟩ := p
      simp only [List.map_cons, List.nodup_cons] at hnd
      by_cases hk : k' = k
      · subst hk
        have hrest : rest.map (fun p => if p.1 = k' then (k', w) else p) = rest := by
          rw [List.map_congr_left (fun q hq => ?_), List.map_id]
          have : q.1 ≠ k' := fun he => hnd.1 (he ▸ List.mem_map_of_mem Prod.fst hq)
          simp [this]
        simp [dinsert, hrest]
      · simp only [List.map_cons, List.mem_cons] at hmem
        rcases hmem with heq | htail
        · exact absurd heq.symm hk
        · simp only [dinsert, if_neg hk, List.map_cons]
          rw [ih htail hnd.2]

theorem dinsert_map_fst_of_mem (record : List (String × Value)) (k : String)
    (w : Value) (hmem : k ∈ record.map Prod.fst)
    (hnd : (record.map Prod.fst).Nodup) :
    (dinsert record k w).map Prod.fst = record.map Prod.fst := by
  rw [dinsert_eq_map record k w hmem hnd, List.map_map]
  refine List.map_congr_left fun p _ => ?_
  by_cases hp : p.1 = k
  · simp [Function.comp, hp]
  · simp [Function.comp, hp]

theorem convert_cons (func : Value → Except PyErr Value) (keys : List String)
    (record : List (String × Value)) (k : String) :
    convert func (k :: keys) record
      = match dlookup record k with
        | none => convert func keys record
        | some v =>
            match func v with
            | Except.ok v' => convert func keys (dinsert record k v')
            | Except.error PyErr.keyError => convert func keys record
            | Except.error e => Except.error e := by
  cases hlook : dlookup record k with
  | none =>
      simp only [convert, List.foldlM_cons, hlook]
      rfl
  | some v =>
      cases hf : func v with
      | ok v' =>
          simp only [convert, List.foldlM_cons, hlook, hf]
          rfl
      | error e =>
          cases e with
          | keyError =>
              simp only [convert, List.foldlM_cons, hlook, hf]
              rfl
          | typeError =>
              simp only [convert, List.foldlM_cons, hlook, hf]
              rfl

theorem dlookup_val_unique (record : List (String × Value)) (k : String)
    (v : Value) (hnd : (record.map Prod.fst).Nodup)
    (h : dlookup record k = some v) :
    ∀ p ∈ record, p.1 = k → p.2 = v := by
  induction record with
  | nil => intro p hp; cases hp
  | cons q rest ih =>
      intro p hp hpk
      obtain ⟨k', v'⟩ := q
      simp only [List.map_cons, List.nodup_cons] at hnd
      simp only [dlookup] at h
      rcases List.mem_cons.mp hp with heq | htail
      · subst heq
        rw [if_pos hpk] at h
        cases h
        rfl
      · have hk' : k' ≠ k := by
          intro he
          subst he
          exact hnd.1 (hpk ▸ List.mem_map_of_mem Prod.fst htail)
        rw [if_neg hk'] at h
        exact ih hnd.2 h p htail hpk

/-! ### Claim theorems -/

/-- Claim C1: for every field mapping and every document, the adapter built
by `build_adapter` extracts each mapped field by splitting its path on the
separator and traversing the document key by key; when every step succeeds
the field is bound to the final value, and when a key is absent the field is
omitted if `fill` is false (the default) and bound to the caller-supplied
default if `fill` is true. In particular, for mapping `{"a": "x.y"}` and
document `{"x": {"y": 5}}` the result is `{"a": 5}`; for document
`{"x": {}}` the result is `{}` with `fill=false` and `{"a": None}` with
`fill=true`, `default=None`. -/
theorem build_adapter_extracts :
    (∀ (mapper : List (String × String)) (sep : String) (data default : Value)
       (fill : Bool) (key loc : String) (r : List (String × Value)),
       sep ≠ "" → (mapper.map Prod.fst).Nodup → (key, loc) ∈ mapper →
       adapter mapper sep data default fill = Except.ok r →
       dlookup r key = match get sep data loc with
         | Except.ok v => some v
         | Except.error _ => if fill then some default else none)
    ∧ adapter [("a", "x.y")] "."
        (Value.vobj [("x", Value.vobj [("y", Value.vint 5)])]) Value.vnone false
        = Except.ok [("a", Value.vint 5)]
    ∧ adapter [("a", "x.y")] "." (Value.vobj [("x", Value.vobj [])])
        Value.vnone false = Except.ok []
    ∧ adapter [("a", "x.y")] "." (Value.vobj [("x", Value.vobj [])])
        Value.vnone true = Except.ok [("a", Value.vnone)] := by
  refine ⟨?_, rfl, rfl, rfl⟩
  intro mapper sep data default fill key loc r hsep hnd hmem hok
  unfold adapter at hok
  have hte := adaptGo_ok_no_typeError sep data default fill mapper [] r hok
  rw [adaptGo_eq_ok sep data default fill mapper [] hte (by simp) hnd] at hok
  simp only [List.nil_append, Except.ok.injEq] at hok
  subst hok
  rw [dlookup_adaptedFields sep data default fill mapper key loc hnd hmem]
  cases hget : get sep data loc with
  | ok v => simp [fieldVal, hget]
  | error e =>
      cases e with
      | keyError =>
          by_cases hfill : fill = true
          · simp [fieldVal, hget, hfill]
          · simp [fieldVal, hget, hfill]
      | typeError => exact absurd hget (hte (key, loc) hmem)

/-- Witness for C1: the general statement applied at mapping
`[("a", "x.y")]`, separator `"."`, document `{"x": {"y": 5}}`, `fill=false`,
with every hypothesis discharged concretely. -/
theorem build_adapter_extracts_witness :
    (("." : String) ≠ "" ∧ (([("a", "x.y")] : List (String × String)).map Prod.fst).Nodup ∧
      ("a", "x.y") ∈ ([("a", "x.y")] : List (String × String)) ∧
      adapter [("a", "x.y")] "."
        (Value.vobj [("x", Value.vobj [("y", Value.vint 5)])]) Value.vnone false
        = Except.ok [("a", Value.vint 5)]) ∧
    dlookup [("a", Value.vint 5)] "a"
      = match get "." (Value.vobj [("x", Value.vobj [("y", Value.vint 5)])]) "x.y" with
        | Except.ok v => some v
        | Except.error _ => if false then some Value.vnone else none :=
  ⟨⟨by decide, by decide, by decide, rfl⟩,
   build_adapter_extracts.1 [("a", "x.y")] "."
     (Value.vobj [("x", Value.vobj [("y", Value.vint 5)])]) Value.vnone false
     "a" "x.y" [("a", Value.vint 5)] (by decide) (by decide) (by decide) rfl⟩

/-- Claim C2: if traversal reaches a cursor that is not a key-addressable
mapping at some step (`get` raises the non-`KeyError` error), the adapter
does not catch it: the whole call fails with that error. Only
key-absent-from-a-mapping (`KeyError`) is recovered, so the adapter never
fails with `KeyError`; and mapping `{"a": "x.y"}` applied to document
`{"x": 5}` propagates the error. -/
theorem adapter_type_error_propagates :
    (∀ (mapper : List (String × String)) (sep : String) (data default : Value)
       (fill : Bool) (key loc : String),
       (key, loc) ∈ mapper → get sep data loc = Except.error PyErr.typeError →
       adapter mapper sep data default fill = Except.error PyErr.typeError)
    ∧ (∀ (mapper : List (String × String)) (sep : String) (data default : Value)
       (fill : Bool),
       adapter mapper sep data default fill ≠ Except.error PyErr.keyError)
    ∧ adapter [("a", "x.y")] "." (Value.vobj [("x", Value.vint 5)])
        Value.vnone false = Except.error PyErr.typeError := by
  refine ⟨?_, ?_, rfl⟩
  · intro mapper sep data default fill key loc hmem herr
    exact adaptGo_typeError sep data default fill mapper [] key loc hmem herr
  · intro mapper sep data default fill
    exact adaptGo_ne_keyError sep data default fill mapper []

/-- Witness for C2: the propagation statement applied at mapping
`[("a", "x.y")]` and document `{"x": 5}`, where traversal of `"x.y"` hits the
scalar `5`. -/
theorem adapter_type_error_propagates_witness :
    (("a", "x.y") ∈ ([("a", "x.y")] : List (String × String)) ∧
      get "." (Value.vobj [("x", Value.vint 5)]) "x.y"
        = Except.error PyErr.typeError) ∧
    adapter [("a", "x.y")] "." (Value.vobj [("x", Value.vint 5)])
      Value.vnone false = Except.error PyErr.typeError :=
  ⟨⟨by decide, rfl⟩,
   adapter_type_error_propagates.1 [("a", "x.y")] "."
     (Value.vobj [("x", Value.vint 5)]) Value.vnone false "a" "x.y"
     (by decide) rfl⟩

/-- Claim C3: whenever the adapter returns without error, the keys of the
returned record appear in exactly the iteration order of the field mapping:
they are the mapping's keys filtered to the fields that were kept, hence a
sublist of the mapping's key sequence in its declaration order; and the key
sequence is unchanged when the document's object keys are reordered
(documents equivalent up to key order give identical key sequences, and
identical success/failure). -/
theorem adapter_key_order :
    (∀ (mapper : List (String × String)) (sep : String) (data default : Value)
       (fill : Bool) (r : List (String × Value)),
       (mapper.map Prod.fst).Nodup →
       adapter mapper sep data default fill = Except.ok r →
       r.map Prod.fst
         = (mapper.filter fun p =>
             (fieldVal sep data default fill p).isSome).map Prod.fst
       ∧ List.Sublist (r.map Prod.fst) (mapper.map Prod.fst))
    ∧ (∀ (mapper : List (String × String)) (sep : String) (d₁ d₂ default : Value)
       (fill : Bool),
       (mapper.map Prod.fst).Nodup → EquivVal d₁ d₂ →
       Except.map (List.map Prod.fst) (adapter mapper sep d₁ default fill)
         = Except.map (List.map Prod.fst) (adapter mapper sep d₂ default fill)) := by
  constructor
  · intro mapper sep data default fill r hnd hok
    unfold adapter at hok
    have hte := adaptGo_ok_no_typeError sep data default fill mapper [] r hok
    rw [adaptGo_eq_ok sep data default fill mapper [] hte (by simp) hnd] at hok
    simp only [List.nil_append, Except.ok.injEq] at hok
    subst hok
    refine ⟨adaptedFields_map_fst sep data default fill mapper, ?_⟩
    rw [adaptedFields_map_fst sep data default fill mapper]
    exact (List.filter_sublist mapper).map Prod.fst
  · intro mapper sep d₁ d₂ default fill hnd hequiv
    by_cases hte : ∀ p ∈ mapper, get sep d₁ p.2 ≠ Except.error PyErr.typeError
    · have hte₂ : ∀ p ∈ mapper, get sep d₂ p.2 ≠ Except.error PyErr.typeError := by
        intro p hp he₂
        cases hd₁ : get sep d₁ p.2 with
        | ok v =>
            have hrel := get_equiv sep d₁ d₂ p.2 hequiv
            rw [hd₁, he₂] at hrel
            simp only [ExceptRelVal] at hrel
        | error e =>
            cases e with
            | keyError =>
                have hrel := get_equiv sep d₁ d₂ p.2 hequiv
                rw [hd₁, he₂] at hrel
                simp only [ExceptRelVal] at hrel
                cases hrel
            | typeError => exact hte p hp hd₁
      unfold adapter
      rw [adaptGo_eq_ok sep d₁ default fill mapper [] hte (by simp) hnd,
        adaptGo_eq_ok sep d₂ default fill mapper [] hte₂ (by simp) hnd]
      simp only [List.nil_append, Except.map]
      congr 1
      rw [adaptedFields_map_fst, adaptedFields_map_fst]
      congr 1
      exact List.filter_congr fun p _ =>
        fieldVal_isSome_equiv sep d₁ d₂ default fill p hequiv
    · push_neg at hte
      obtain ⟨p, hp, he⟩ := hte
      have he₁ : get sep d₁ p.2 = Except.error PyErr.typeError := he
      have he₂ := get_typeError_equiv sep d₁ d₂ p.2 hequiv he₁
      have hp' : (p.1, p.2) ∈ mapper := by simpa using hp
      unfold adapter
      rw [adaptGo_typeError sep d₁ default fill mapper [] p.1 p.2 hp' he₁,
        adaptGo_typeError sep d₂ default fill mapper [] p.1 p.2 hp' he₂]

/-- Witness for C3: the order statement applied at mapping
`[("a", "x.y"), ("b", "z")]` and document `{"x": {"y": 5}}`, where `b` is
missing: the result keys `["a"]` follow the mapping order. -/
theorem adapter_key_order_witness :
    ((([("a", "x.y"), ("b", "z")] : List (String × String)).map Prod.fst).Nodup ∧
      adapter [("a", "x.y"), ("b", "z")] "."
        (Value.vobj [("x", Value.vobj [("y", Value.vint 5)])]) Value.vnone false
        = Except.ok [("a", Value.vint 5)]) ∧
    ([("a", Value.vint 5)].map Prod.fst
      = (([("a", "x.y"), ("b", "z")] : List (String × String)).filter fun p =>
          (fieldVal "." (Value.vobj [("x", Value.vobj [("y", Value.vint 5)])])
            Value.vnone false p).isSome).map Prod.fst
      ∧ List.Sublist ([("a", Value.vint 5)].map Prod.fst)
          (([("a", "x.y"), ("b", "z")] : List (String × String)).map Prod.fst)) :=
  ⟨⟨by decide, rfl⟩,
   adapter_key_order.1 [("a", "x.y"), ("b", "z")] "."
     (Value.vobj [("x", Value.vobj [("y", Value.vint 5)])]) Value.vnone false
     [("a", Value.vint 5)] (by decide) rfl⟩

/-- Claim C7: for every (total) function `func`, every tuple of key names and
every record, the converter returned by `field_converter` replaces
`record[name]` with `func(record[name])` for each listed name present in the
record (applied once per occurrence of the name in the tuple, in order),
silently skips each listed name absent from the record, and leaves every
field not in the listed names unchanged — never raising an error. E.g.
converting `"rating"` maps `{"rating": "1500", "name": "x"}` to
`{"rating": 1500, "name": "x"}` and returns `{"name": "x"}` unchanged when
the key is absent. -/
theorem field_converter_updates :
    (∀ (f : Value → Value) (keys : List String) (record : List (String × Value)),
       (record.map Prod.fst).Nodup →
       convert (fun v => Except.ok (f v)) keys record
         = Except.ok (record.map fun p => (p.1, f^[keys.count p.1] p.2)))
    ∧ convert (fun _ => Except.ok (Value.vint 1500)) ["rating"]
        [("rating", Value.vstr "1500"), ("name", Value.vstr "x")]
        = Except.ok [("rating", Value.vint 1500), ("name", Value.vstr "x")]
    ∧ convert (fun _ => Except.ok (Value.vint 1500)) ["rating"]
        [("name", Value.vstr "x")] = Except.ok [("name", Value.vstr "x")] := by
  refine ⟨?_, rfl, rfl⟩
  intro f keys
  induction keys with
  | nil =>
      intro record _
      show Except.ok record = _
      simp [Prod.mk.eta]
  | cons k ks ih =>
      intro record hnd
      cases hlook : dlookup record k with
      | none =>
          have hk : k ∉ record.map Prod.fst := (dlookup_eq_none_iff record k).mp hlook
          simp only [convert_cons, hlook]
          rw [ih record hnd]
          congr 1
          refine List.map_congr_left fun p hp => ?_
          have hne : p.1 ≠ k := fun he => hk (he ▸ List.mem_map_of_mem Prod.fst hp)
          simp [List.count_cons, hne]
      | some v =>
          have hkmem : k ∈ record.map Prod.fst := dlookup_isSome_mem record k v hlook
          have hnd' : ((dinsert record k (f v)).map Prod.fst).Nodup := by
            rw [dinsert_map_fst_of_mem record k (f v) hkmem hnd]
            exact hnd
          simp only [convert_cons, hlook]
          rw [ih (dinsert record k (f v)) hnd']
          congr 1
          rw [dinsert_eq_map record k (f v) hkmem hnd, List.map_map]
          refine List.map_congr_left fun p hp => ?_
          by_cases hpk : p.1 = k
          · have hv : p.2 = v := dlookup_val_unique record k v hnd hlook p hp hpk
            simp [Function.comp, hpk, hv, List.count_cons_self,
              Function.iterate_succ_apply]
          · simp [Function.comp, hpk, List.count_cons]

/-- Witness for C7: the general statement applied with a concrete converter
at the record `{"rating": "1500", "name": "x"}`. -/
theorem field_converter_updates_witness :
    (((([("rating", Value.vstr "1500"), ("name", Value.vstr "x")] :
        List (String × Value))).map Prod.fst).Nodup) ∧
    convert (fun v => Except.ok ((fun _ => Value.vint 1500) v)) ["rating"]
        [("rating", Value.vstr "1500"), ("name", Value.vstr "x")]
      = Except.ok (([("rating", Value.vstr "1500"), ("name", Value.vstr "x")] :
          List (String × Value)).map fun p =>
            (p.1, (fun _ => Value.vint 1500)^[(["rating"] : List String).count p.1] p.2)) :=
  ⟨by decide,
   field_converter_updates.1 (fun _ => Value.vint 1500) ["rating"]
     [("rating", Value.vstr "1500"), ("name", Value.vstr "x")] (by decide)⟩

theorem listingConvert_go {α β : Type} (f : α → β) (items : List α)
    (acc : List β) :
    items.foldl (fun result item => result ++ [f item]) acc
      = acc ++ items.map f := by
  induction items generalizing acc with
  | nil => simp
  | cons x xs ih => simp [List.foldl_cons, ih]

/-- Claim C8: the converter returned by `listing(func)` builds a new list
whose elements are `func` applied to each element of `items`, in the same
order and with the same length; e.g. `listing(str)` maps `[1, 2, 3]` to
`["1", "2", "3"]`. (The input list itself is untouched: the conversion only
reads `items` and appends to a fresh `result` list.) -/
theorem listing_maps :
    (∀ (α β : Type) (f : α → β) (items : List α),
       listingConvert f items = items.map f
       ∧ (listingConvert f items).length = items.length)
    ∧ listingConvert (fun n : Nat => Nat.repr n) [1, 2, 3] = ["1", "2", "3"] := by
  refine ⟨fun α β f items => ?_, rfl⟩
  have h : listingConvert f items = items.map f := by
    unfold listingConvert
    simpa using listingConvert_go f items []
  exact ⟨h, by rw [h, List.length_map]⟩

/-- Claim C9: an adapter instance is stateless across calls: running any
sequence of calls leaves the closed-over `mapper`/`sep` state unchanged, and
each call's result is exactly the pure `adapter` function of that call's own
arguments — unaffected by any other document the instance was applied to. -/
theorem adapter_stateless :
    ∀ (st : AdapterState) (calls : List (Value × Value × Bool)),
      (adaptCalls st calls).2 = st
      ∧ (adaptCalls st calls).1
          = calls.map fun c => adapter st.mapper st.sep c.1 c.2.1 c.2.2 := by
  intro st calls
  induction calls with
  | nil => exact ⟨rfl, rfl⟩
  | cons c rest ih =>
      refine ⟨?_, ?_⟩
      · simp only [adaptCalls, applyAdapter]
        exact ih.1
      · simp only [adaptCalls, applyAdapter, List.map_cons]
        rw [ih.2]

/-- Claim C10 (implicit): in the converter returned by `field_converter`, the
`try/except KeyError` around `data[k] = func(data[k])` also swallows a
`KeyError` raised by `func` itself: when the listed key is present but
`func` raises `KeyError`, the field keeps its old value and conversion
continues with the remaining keys, with no error propagating. -/
theorem inner_swallows_func_keyError :
    (∀ (func : Value → Except PyErr Value) (k : String) (rest : List String)
       (record : List (String × Value)) (v : Value),
       dlookup record k = some v → func v = Except.error PyErr.keyError →
       convert func (k :: rest) record = convert func rest record)
    ∧ convert (fun _ => Except.error PyErr.keyError) ["a"]
        [("a", Value.vint 1)] = Except.ok [("a", Value.vint 1)] := by
  refine ⟨?_, rfl⟩
  intro func k rest record v hlook hf
  simp only [convert_cons, hlook, hf]

/-- Witness for C10: a converter whose `func` always raises `KeyError`,
applied to the one-field record `{"a": 1}` with the key present. -/
theorem inner_swallows_func_keyError_witness :
    (dlookup [("a", Value.vint 1)] "a" = some (Value.vint 1)
      ∧ (fun _ : Value => (Except.error PyErr.keyError : Except PyErr Value))
          (Value.vint 1) = Except.error PyErr.keyError) ∧
    convert (fun _ => Except.error PyErr.keyError) ["a"] [("a", Value.vint 1)]
      = convert (fun _ => Except.error PyErr.keyError) [] [("a", Value.vint 1)] :=
  ⟨⟨rfl, rfl⟩,
   inner_swallows_func_keyError.1 (fun _ => Except.error PyErr.keyError) "a" []
     [("a", Value.vint 1)] (Value.vint 1) rfl rfl⟩

/-- Claim C6: `instant_from_string("2021-06-15T12:00:00.000000Z")`
(code: `datetime_from_str`) yields an instant equal to
`instant_from_seconds(1623758400.0)` (code: `datetime_from_seconds`;
`1623758400.0` is integral, hence converts exactly). -/
theorem instant_from_string_epoch_example :
    datetime_from_str "2021-06-15T12:00:00.000000Z"
      = some (datetime_from_seconds 1623758400) := by
  rfl

/-! ### Reader lemmas for the `strptime` model -/

theorem natOfDigits_one (a : Char) : natOfDigits [a] = dval a := by
  simp [natOfDigits]

theorem natOfDigits_two (a b : Char) :
    natOfDigits [a, b] = dval a * 10 + dval b := by
  simp [natOfDigits]

theorem natOfDigits_four (a b c d : Char) :
    natOfDigits [a, b, c, d]
      = ((dval a * 10 + dval b) * 10 + dval c) * 10 + dval d := by
  simp [natOfDigits]

theorem read4_sound (s : List Char) (y : Nat) (r : List Char)
    (h : read4 s = some (y, r)) :
    ∃ ys, s = ys ++ r ∧ ys.length = 4 ∧ ys.all isDig = true
      ∧ natOfDigits ys = y := by
  cases s with
  | nil => simp [read4] at h
  | cons a t₁ =>
  cases t₁ with
  | nil => simp [read4] at h
  | cons b t₂ =>
  cases t₂ with
  | nil => simp [read4] at h
  | cons c t₃ =>
  cases t₃ with
  | nil => simp [read4] at h
  | cons d rest =>
      simp only [read4] at h
      by_cases hc : (isDig a && isDig b && isDig c && isDig d) = true
      · rw [if_pos hc] at h
        cases h
        simp only [Bool.and_eq_true] at hc
        exact ⟨[a, b, c, d], rfl, rfl,
          by simp [List.all_cons, hc.1.1.1, hc.1.1.2, hc.1.2, hc.2],
          natOfDigits_four a b c d⟩
      · rw [if_neg hc] at h
        exact Option.noConfusion h

theorem read4_complete (ys r : List Char) (hlen : ys.length = 4)
    (hdig : ys.all isDig = true) :
    read4 (ys ++ r) = some (natOfDigits ys, r) := by
  cases ys with
  | nil => simp at hlen
  | cons a t =>
      have ht : t.length = 3 := by simpa using hlen
      obtain ⟨b, c, d, rfl⟩ := List.length_eq_three.mp ht
      simp only [List.all_cons, List.all_nil, Bool.and_eq_true] at hdig
      obtain ⟨ha, hb, hc, hd, _⟩ := hdig
      simp [read4, ha, hb, hc, hd, natOfDigits_four]

theorem read12_sound (s : List Char) (n v : Nat) (r : List Char)
    (h : read12 s = some (n, v, r)) :
    ∃ cs, s = cs ++ r ∧ cs.all isDig = true ∧ cs.length = n
      ∧ (n = 1 ∨ n = 2) ∧ natOfDigits cs = v := by
  cases s with
  | nil => simp [read12] at h
  | cons a t =>
  cases t with
  | nil =>
      simp only [read12] at h
      by_cases ha : isDig a = true
      · rw [if_pos ha] at h
        cases h
        exact ⟨[a], rfl, by simp [ha], rfl, Or.inl rfl, natOfDigits_one a⟩
      · rw [if_neg ha] at h
        exact Option.noConfusion h
  | cons b rest =>
      simp only [read12] at h
      by_cases ha : isDig a = true
      · rw [if_pos ha] at h
        by_cases hb : isDig b = true
        · rw [if_pos hb] at h
          cases h
          exact ⟨[a, b], rfl, by simp [ha, hb], rfl, Or.inr rfl,
            natOfDigits_two a b⟩
        · rw [if_neg hb] at h
          cases h
          exact ⟨[a], rfl, by simp [ha], rfl, Or.inl rfl, natOfDigits_one a⟩
      · rw [if_neg ha] at h
        exact Option.noConfusion h

theorem read12_complete_one (a : Char) (r : List Char) (ha : isDig a = true)
    (hr : r = [] ∨ ∃ c r', r = c :: r' ∧ isDig c = false) :
    read12 (a :: r) = some (1, dval a, r) := by
  rcases hr with rfl | ⟨c, r', rfl, hc⟩
  · simp [read12, ha]
  · simp [read12, ha, hc]

theorem read12_complete_two (a b : Char) (r : List Char)
    (ha : isDig a = true) (hb : isDig b = true) :
    read12 (a :: b :: r) = some (2, dval a * 10 + dval b, r) := by
  simp [read12, ha, hb]

theorem expectCh_sound (c : Char) (s r : List Char)
    (h : expectCh c s = some r) : s = c :: r := by
  cases s with
  | nil => simp [expectCh] at h
  | cons c' t =>
      simp only [expectCh] at h
      by_cases hc : c' = c
      · rw [if_pos hc] at h
        cases h
        rw [hc]
      · rw [if_neg hc] at h
        exact Option.noConfusion h

theorem expectCh_complete (c : Char) (r : List Char) :
    expectCh c (c :: r) = some r := by
  simp [expectCh]

theorem expectChCI_sound (lower upper : Char) (s r : List Char)
    (h : expectChCI lower upper s = some r) :
    ∃ tc, s = tc :: r ∧ (tc = lower ∨ tc = upper) := by
  cases s with
  | nil => simp [expectChCI] at h
  | cons c' t =>
      simp only [expectChCI] at h
      by_cases hc : c' = lower ∨ c' = upper
      · rw [if_pos hc] at h
        cases h
        exact ⟨c', rfl, hc⟩
      · rw [if_neg hc] at h
        exact Option.noConfusion h

theorem expectChCI_complete (lower upper tc : Char) (r : List Char)
    (htc : tc = lower ∨ tc = upper) :
    expectChCI lower upper (tc :: r) = some r := by
  simp [expectChCI, htc]

theorem takeWhile_append_of_all (p : Char → Bool) (l₁ l₂ : List Char)
    (h : ∀ x ∈ l₁, p x = true) (c : Char) (hc : p c = false) :
    (l₁ ++ c :: l₂).takeWhile p = l₁ := by
  induction l₁ with
  | nil => simp [List.takeWhile, hc]
  | cons a t ih =>
      simp only [List.cons_append, List.takeWhile_cons,
        h a (List.mem_cons_self a t), if_true]
      rw [ih fun x hx => h x (List.mem_cons_of_mem a hx)]

theorem readFrac_sound (s : List Char) (n v : Nat) (r : List Char)
    (h : readFrac s = some (n, v, r)) :
    ∃ fs, s = fs ++ r ∧ fs.all isDig = true ∧ fs.length = n
      ∧ 1 ≤ n ∧ n ≤ 6 ∧ natOfDigits fs = v := by
  unfold readFrac at h
  by_cases hemp : ((s.takeWhile isDig).take 6).isEmpty = true
  · rw [if_pos hemp] at h
    exact Option.noConfusion h
  · rw [if_neg hemp] at h
    cases h
    refine ⟨(s.takeWhile isDig).take 6, ?_, ?_, rfl, ?_, List.length_take_le 6 _, rfl⟩
    · have hpre : (s.takeWhile isDig).take 6 <+: s :=
        (List.take_prefix 6 (s.takeWhile isDig)).trans (List.takeWhile_prefix isDig)
      calc s = s.take ((s.takeWhile isDig).take 6).length
                ++ s.drop ((s.takeWhile isDig).take 6).length :=
              (List.take_append_drop _ s).symm
        _ = (s.takeWhile isDig).take 6 ++ s.drop ((s.takeWhile isDig).take 6).length := by
              rw [← List.prefix_iff_eq_take.mp hpre]
    · exact List.all_eq_true.mpr fun c hc =>
        List.mem_takeWhile_imp (List.take_subset 6 _ hc)
    · have : (s.takeWhile isDig).take 6 ≠ [] := by
        simpa [List.isEmpty_iff] using hemp
      exact List.length_pos.mpr this

theorem readFrac_complete (fs : List Char) (c : Char) (r : List Char)
    (hdig : fs.all isDig = true) (h1 : 1 ≤ fs.length) (h6 : fs.length ≤ 6)
    (hc : isDig c = false) :
    readFrac (fs ++ c :: r) = some (fs.length, natOfDigits fs, c :: r) := by
  have htw : (fs ++ c :: r).takeWhile isDig = fs :=
    takeWhile_append_of_all isDig fs r (List.all_eq_true.mp hdig) c hc
  have htake : ((fs ++ c :: r).takeWhile isDig).take 6 = fs := by
    rw [htw]
    exact List.take_of_length_le h6
  have hne : fs.isEmpty = false := by
    cases fs with
    | nil => simp at h1
    | cons a t => rfl
  unfold readFrac
  rw [htake]
  simp only [hne, Bool.false_eq_true, if_false, List.drop_left fs (c :: r)]
  rfl

theorem digitField_of_fieldOk (cs : List Char) (lo1 hi1 lo2 hi2 : Nat)
    (hall : cs.all isDig = true) (hn : cs.length = 1 ∨ cs.length = 2)
    (hok : fieldOk cs.length (natOfDigits cs) lo1 hi1 lo2 hi2 = true) :
    digitField cs lo1 hi1 lo2 hi2 := by
  refine ⟨hall, ?_⟩
  rcases hn with h1 | h2
  · left
    rw [fieldOk, if_pos h1] at hok
    simp only [Bool.and_eq_true, decide_eq_true_eq] at hok
    exact ⟨h1, hok.1, hok.2⟩
  · right
    have hne : cs.length ≠ 1 := by omega
    rw [fieldOk, if_neg hne] at hok
    simp only [Bool.and_eq_true, decide_eq_true_eq] at hok
    exact ⟨h2, hok.1, hok.2⟩

theorem read12_complete_field (cs r : List Char) (c : Char)
    (hc : isDig c = false) (lo1 hi1 lo2 hi2 : Nat)
    (hdf : digitField cs lo1 hi1 lo2 hi2) :
    read12 (cs ++ c :: r) = some (cs.length, natOfDigits cs, c :: r)
    ∧ fieldOk cs.length (natOfDigits cs) lo1 hi1 lo2 hi2 = true := by
  obtain ⟨hall, hcase⟩ := hdf
  rcases hcase with ⟨h1, hlo, hhi⟩ | ⟨h2, hlo, hhi⟩
  · obtain ⟨a, rfl⟩ := List.length_eq_one.mp h1
    simp only [List.all_cons, List.all_nil, Bool.and_eq_true] at hall
    constructor
    · have := read12_complete_one a (c :: r) hall.1 (Or.inr ⟨c, r, rfl, hc⟩)
      simpa [natOfDigits_one] using this
    · rw [fieldOk, if_pos h1]
      simp only [Bool.and_eq_true, decide_eq_true_eq]
      exact ⟨hlo, hhi⟩
  · obtain ⟨a, b, rfl⟩ := List.length_eq_two.mp h2
    simp only [List.all_cons, List.all_nil, Bool.and_eq_true] at hall
    constructor
    · have := read12_complete_two a b (c :: r) hall.1 hall.2.1
      simpa [natOfDigits_two] using this
    · rw [fieldOk, if_neg (by simp [h2])]
      simp only [Bool.and_eq_true, decide_eq_true_eq]
      exact ⟨hlo, hhi⟩

theorem isDig_ne_space (c : Char) (h : isDig c = true) : c ≠ ' ' := by
  intro hc
  subst hc
  exact absurd h (by decide)

theorem dval_le_nine (c : Char) (h : isDig c = true) : dval c ≤ 9 := by
  simp only [isDig, Bool.and_eq_true, decide_eq_true_eq] at h
  have h2 : c.toNat ≤ 57 := h.2
  unfold dval
  omega

theorem dayVal_of_digits (cs : List Char) (hne : cs ≠ [])
    (hdig : cs.all isDig = true) : dayVal cs = natOfDigits cs := by
  cases cs with
  | nil => exact absurd rfl hne
  | cons a t =>
      simp only [List.all_cons, Bool.and_eq_true] at hdig
      simp only [dayVal, if_neg (isDig_ne_space a hdig.1)]

theorem readDay_sound (s : List Char) (n v : Nat) (r : List Char)
    (h : readDay s = some (n, v, r)) :
    (∃ cs, s = cs ++ r ∧ cs.all isDig = true ∧ cs.length = n
      ∧ (n = 1 ∨ n = 2) ∧ natOfDigits cs = v ∧ dayVal cs = v)
    ∨ (∃ c, s = ' ' :: c :: r ∧ isDig c = true ∧ 1 ≤ dval c
        ∧ dayVal [' ', c] = v) := by
  have hdigits : read12 s = some (n, v, r) →
      (∃ cs, s = cs ++ r ∧ cs.all isDig = true ∧ cs.length = n
        ∧ (n = 1 ∨ n = 2) ∧ natOfDigits cs = v ∧ dayVal cs = v) := by
    intro h12
    obtain ⟨cs, hseq, hdig, hlen, hn, hnat⟩ := read12_sound s n v r h12
    have hne : cs ≠ [] := by
      intro he
      rw [he] at hlen
      simp at hlen
      omega
    exact ⟨cs, hseq, hdig, hlen, hn, hnat,
      (dayVal_of_digits cs hne hdig).trans hnat⟩
  cases s with
  | nil => exact Or.inl (hdigits h)
  | cons c₀ t =>
  cases t with
  | nil => exact Or.inl (hdigits h)
  | cons c rest =>
      simp only [readDay] at h
      by_cases h₀ : c₀ = ' '
      · rw [if_pos h₀] at h
        by_cases hcd : (isDig c && decide (1 ≤ dval c)) = true
        · rw [if_pos hcd] at h
          cases h
          simp only [Bool.and_eq_true, decide_eq_true_eq] at hcd
          refine Or.inr ⟨c, by rw [h₀], hcd.1, hcd.2, ?_⟩
          simp [dayVal, natOfDigits_one]
        · rw [if_neg hcd] at h
          exact Option.noConfusion h
      · rw [if_neg h₀] at h
        exact Or.inl (hdigits h)

theorem readDay_sound_field (s : List Char) (n v : Nat) (r : List Char)
    (h : readDay s = some (n, v, r))
    (hok : fieldOk n v 1 9 1 31 = true) :
    ∃ dsl, s = dsl ++ r ∧ dayField dsl ∧ dayVal dsl = v := by
  rcases readDay_sound s n v r h with
    ⟨cs, hseq, hdig, hlen, hn, hnat, hdv⟩ | ⟨c, hseq, hdig, h1, hdv⟩
  · exact ⟨cs, hseq,
      Or.inl (digitField_of_fieldOk cs 1 9 1 31 hdig (hlen ▸ hn)
        (by rw [hlen, hnat]; exact hok)), hdv⟩
  · exact ⟨[' ', c], hseq, Or.inr ⟨c, rfl, hdig, h1⟩, hdv⟩

theorem readDay_complete_field (dsl r : List Char) (c : Char)
    (hc : isDig c = false) (hdf : dayField dsl) :
    ∃ n, readDay (dsl ++ c :: r) = some (n, dayVal dsl, c :: r)
      ∧ fieldOk n (dayVal dsl) 1 9 1 31 = true := by
  rcases hdf with hdig | ⟨ch, rfl, hchd, hch1⟩
  · have hne : dsl ≠ [] := by
      intro he
      rcases hdig.2 with ⟨h1, _⟩ | ⟨h2, _⟩
      · rw [he] at h1
        simp at h1
      · rw [he] at h2
        simp at h2
    have hdv : dayVal dsl = natOfDigits dsl := dayVal_of_digits dsl hne hdig.1
    obtain ⟨hP, hOk⟩ := read12_complete_field dsl r c hc 1 9 1 31 hdig
    have hsteer : readDay (dsl ++ c :: r) = read12 (dsl ++ c :: r) := by
      cases dsl with
      | nil => exact absurd rfl hne
      | cons a t =>
          have ha : isDig a = true := by
            have hall := hdig.1
            simp only [List.all_cons, Bool.and_eq_true] at hall
            exact hall.1
          cases t with
          | nil =>
              simp only [List.cons_append, List.nil_append, readDay,
                if_neg (isDig_ne_space a ha)]
          | cons b t' =>
              simp only [List.cons_append, readDay,
                if_neg (isDig_ne_space a ha)]
    refine ⟨dsl.length, ?_, ?_⟩
    · rw [hsteer, hdv]
      exact hP
    · rw [hdv]
      exact hOk
  · have hch9 : dval ch ≤ 9 := dval_le_nine ch hchd
    have hdv : dayVal [' ', ch] = dval ch := by
      simp [dayVal, natOfDigits_one]
    have hcond : (isDig ch && decide (1 ≤ dval ch)) = true := by
      simp only [Bool.and_eq_true, decide_eq_true_eq]
      exact ⟨hchd, hch1⟩
    refine ⟨1, ?_, ?_⟩
    · simp only [List.cons_append, List.nil_append, readDay, if_true, hdv]
      rw [if_pos hcond]
    · rw [hdv, fieldOk, if_pos rfl]
      simp only [Bool.and_eq_true, decide_eq_true_eq]
      exact ⟨hch1, hch9⟩

theorem strptimeFields_sound (s : List Char) (y mo d hh mi sec us : Nat)
    (hp : strptimeFields s = some (y, mo, d, hh, mi, sec, us)) :
    ∃ (ys msl dsl hsl misl ssl fsl : List Char) (tc zc : Char),
      s = ys ++ '-' :: (msl ++ '-' :: (dsl ++ tc :: (hsl ++ ':' ::
        (misl ++ ':' :: (ssl ++ '.' :: (fsl ++ [zc]))))))
      ∧ ys.length = 4 ∧ ys.all isDig = true
      ∧ digitField msl 1 9 1 12 ∧ dayField dsl
      ∧ digitField hsl 0 9 0 23 ∧ digitField misl 0 9 0 59
      ∧ digitField ssl 0 9 0 61
      ∧ 1 ≤ fsl.length ∧ fsl.length ≤ 6 ∧ fsl.all isDig = true
      ∧ (tc = 't' ∨ tc = 'T') ∧ (zc = 'z' ∨ zc = 'Z')
      ∧ natOfDigits ys = y ∧ natOfDigits msl = mo ∧ dayVal dsl = d
      ∧ natOfDigits hsl = hh ∧ natOfDigits misl = mi ∧ natOfDigits ssl = sec
      ∧ natOfDigits fsl * 10 ^ (6 - fsl.length) = us := by
  unfold strptimeFields at hp
  obtain ⟨⟨y₀, r₀⟩, h4, hp⟩ := Option.bind_eq_some.mp hp
  obtain ⟨r₁, hd1, hp⟩ := Option.bind_eq_some.mp hp
  obtain ⟨⟨nmo, mo₀, r₂⟩, h12mo, hp⟩ := Option.bind_eq_some.mp hp
  obtain ⟨hokmo, hp⟩ := Option.ite_none_right_eq_some.mp hp
  obtain ⟨r₃, hd2, hp⟩ := Option.bind_eq_some.mp hp
  obtain ⟨⟨nd, d₀, r₄⟩, h12d, hp⟩ := Option.bind_eq_some.mp hp
  obtain ⟨hokd, hp⟩ := Option.ite_none_right_eq_some.mp hp
  obtain ⟨r₅, hT, hp⟩ := Option.bind_eq_some.mp hp
  obtain ⟨⟨nh, h₀, r₆⟩, h12h, hp⟩ := Option.bind_eq_some.mp hp
  obtain ⟨hokh, hp⟩ := Option.ite_none_right_eq_some.mp hp
  obtain ⟨r₇, hc1, hp⟩ := Option.bind_eq_some.mp hp
  obtain ⟨⟨nmi, mi₀, r₈⟩, h12mi, hp⟩ := Option.bind_eq_some.mp hp
  obtain ⟨hokmi, hp⟩ := Option.ite_none_right_eq_some.mp hp
  obtain ⟨r₉, hc2, hp⟩ := Option.bind_eq_some.mp hp
  obtain ⟨⟨ns, s₀, r₁₀⟩, h12s, hp⟩ := Option.bind_eq_some.mp hp
  obtain ⟨hoks, hp⟩ := Option.ite_none_right_eq_some.mp hp
  obtain ⟨r₁₁, hdot, hp⟩ := Option.bind_eq_some.mp hp
  obtain ⟨⟨nf, f₀, r₁₂⟩, hfr, hp⟩ := Option.bind_eq_some.mp hp
  obtain ⟨r₁₃, hZ, hp⟩ := Option.bind_eq_some.mp hp
  obtain ⟨hnil, htuple⟩ := Option.ite_none_right_eq_some.mp hp
  rw [Option.some.injEq] at htuple
  simp only [Prod.mk.injEq] at htuple
  obtain ⟨hy, hmo, hd, hh', hmi, hs, hus⟩ := htuple
  obtain ⟨ys, hseq, hylen, hydig, hynat⟩ := read4_sound s y₀ r₀ h4
  have hr₀ := expectCh_sound '-' r₀ r₁ hd1
  obtain ⟨msl, hr₁, hmsdig, hmslen, hmsn, hmsnat⟩ := read12_sound r₁ nmo mo₀ r₂ h12mo
  have hr₂ := expectCh_sound '-' r₂ r₃ hd2
  obtain ⟨dsl, hr₃, hdsfield, hdsval⟩ := readDay_sound_field r₃ nd d₀ r₄ h12d hokd
  obtain ⟨tc, hr₄, htc⟩ := expectChCI_sound 't' 'T' r₄ r₅ hT
  obtain ⟨hsl, hr₅, hhsdig, hhslen, hhsn, hhsnat⟩ := read12_sound r₅ nh h₀ r₆ h12h
  have hr₆ := expectCh_sound ':' r₆ r₇ hc1
  obtain ⟨misl, hr₇, hmisdig, hmislen, hmisn, hmisnat⟩ := read12_sound r₇ nmi mi₀ r₈ h12mi
  have hr₈ := expectCh_sound ':' r₈ r₉ hc2
  obtain ⟨ssl, hr₉, hssdig, hsslen, hssn, hssnat⟩ := read12_sound r₉ ns s₀ r₁₀ h12s
  have hr₁₀ := expectCh_sound '.' r₁₀ r₁₁ hdot
  obtain ⟨fsl, hr₁₁, hfsdig, hfslen, hfs1, hfs6, hfsnat⟩ := readFrac_sound r₁₁ nf f₀ r₁₂ hfr
  obtain ⟨zc, hr₁₂, hzc⟩ := expectChCI_sound 'z' 'Z' r₁₂ r₁₃ hZ
  subst hnil hr₁₂ hr₁₁ hr₁₀ hr₉ hr₈ hr₇ hr₆ hr₅ hr₄ hr₃ hr₂ hr₁ hr₀ hseq
  refine ⟨ys, msl, dsl, hsl, misl, ssl, fsl, tc, zc, rfl, hylen, hydig,
    digitField_of_fieldOk msl 1 9 1 12 hmsdig (hmslen ▸ hmsn)
      (by rw [hmslen, hmsnat]; exact hokmo),
    hdsfield,
    digitField_of_fieldOk hsl 0 9 0 23 hhsdig (hhslen ▸ hhsn)
      (by rw [hhslen, hhsnat]; exact hokh),
    digitField_of_fieldOk misl 0 9 0 59 hmisdig (hmislen ▸ hmisn)
      (by rw [hmislen, hmisnat]; exact hokmi),
    digitField_of_fieldOk ssl 0 9 0 61 hssdig (hsslen ▸ hssn)
      (by rw [hsslen, hssnat]; exact hoks),
    by omega, by omega, hfsdig, htc, hzc,
    hynat.trans hy, hmsnat.trans hmo, hdsval.trans hd, hhsnat.trans hh',
    hmisnat.trans hmi, hssnat.trans hs, ?_⟩
  rw [hfslen, hfsnat]
  exact hus

theorem strptimeFields_complete (ys msl dsl hsl misl ssl fsl : List Char)
    (tc zc : Char)
    (hylen : ys.length = 4) (hydig : ys.all isDig = true)
    (hms : digitField msl 1 9 1 12) (hds : dayField dsl)
    (hhs : digitField hsl 0 9 0 23) (hmis : digitField misl 0 9 0 59)
    (hss : digitField ssl 0 9 0 61)
    (hf1 : 1 ≤ fsl.length) (hf6 : fsl.length ≤ 6) (hfdig : fsl.all isDig = true)
    (htc : tc = 't' ∨ tc = 'T') (hzc : zc = 'z' ∨ zc = 'Z') :
    strptimeFields (ys ++ '-' :: (msl ++ '-' :: (dsl ++ tc :: (hsl ++ ':' ::
        (misl ++ ':' :: (ssl ++ '.' :: (fsl ++ [zc])))))))
      = some (natOfDigits ys, natOfDigits msl, dayVal dsl,
          natOfDigits hsl, natOfDigits misl, natOfDigits ssl,
          natOfDigits fsl * 10 ^ (6 - fsl.length)) := by
  have htcnd : isDig tc = false := by
    rcases htc with h | h <;> rw [h] <;> decide
  have hzcnd : isDig zc = false := by
    rcases hzc with h | h <;> rw [h] <;> decide
  obtain ⟨hmoP, hmoOk⟩ := read12_complete_field msl
    (dsl ++ tc :: (hsl ++ ':' :: (misl ++ ':' :: (ssl ++ '.' :: (fsl ++ [zc])))))
    '-' (by decide) 1 9 1 12 hms
  obtain ⟨nd, hdP, hdOk⟩ := readDay_complete_field dsl
    (hsl ++ ':' :: (misl ++ ':' :: (ssl ++ '.' :: (fsl ++ [zc]))))
    tc htcnd hds
  obtain ⟨hhP, hhOk⟩ := read12_complete_field hsl
    (misl ++ ':' :: (ssl ++ '.' :: (fsl ++ [zc]))) ':' (by decide) 0 9 0 23 hhs
  obtain ⟨hmiP, hmiOk⟩ := read12_complete_field misl
    (ssl ++ '.' :: (fsl ++ [zc])) ':' (by decide) 0 9 0 59 hmis
  obtain ⟨hsP, hsOk⟩ := read12_complete_field ssl
    (fsl ++ [zc]) '.' (by decide) 0 9 0 61 hss
  unfold strptimeFields
  refine Option.bind_eq_some.mpr ⟨_, read4_complete ys _ hylen hydig, ?_⟩
  refine Option.bind_eq_some.mpr ⟨_, expectCh_complete '-' _, ?_⟩
  refine Option.bind_eq_some.mpr ⟨_, hmoP, ?_⟩
  refine Option.ite_none_right_eq_some.mpr ⟨hmoOk, ?_⟩
  refine Option.bind_eq_some.mpr ⟨_, expectCh_complete '-' _, ?_⟩
  refine Option.bind_eq_some.mpr ⟨_, hdP, ?_⟩
  refine Option.ite_none_right_eq_some.mpr ⟨hdOk, ?_⟩
  refine Option.bind_eq_some.mpr ⟨_, expectChCI_complete 't' 'T' tc _ htc, ?_⟩
  refine Option.bind_eq_some.mpr ⟨_, hhP, ?_⟩
  refine Option.ite_none_right_eq_some.mpr ⟨hhOk, ?_⟩
  refine Option.bind_eq_some.mpr ⟨_, expectCh_complete ':' _, ?_⟩
  refine Option.bind_eq_some.mpr ⟨_, hmiP, ?_⟩
  refine Option.ite_none_right_eq_some.mpr ⟨hmiOk, ?_⟩
  refine Option.bind_eq_some.mpr ⟨_, expectCh_complete ':' _, ?_⟩
  refine Option.bind_eq_some.mpr ⟨_, hsP, ?_⟩
  refine Option.ite_none_right_eq_some.mpr ⟨hsOk, ?_⟩
  refine Option.bind_eq_some.mpr ⟨_, expectCh_complete '.' _, ?_⟩
  refine Option.bind_eq_some.mpr
    ⟨_, readFrac_complete fsl zc [] hfdig hf1 hf6 hzcnd, ?_⟩
  refine Option.bind_eq_some.mpr ⟨_, expectChCI_complete 'z' 'Z' zc _ hzc, ?_⟩
  rfl

/-- Counterexample to Claim C5 as stated: `datetime_from_str` does not
succeed exactly on the strict pattern. `"2021-6-15T12:00:00.000000Z"` has a
one-digit month, so it does not match the strict reading of
`%Y-%m-%dT%H:%M:%S.%fZ` (4-digit year, 2-digit month/day/hour/minute/second),
yet the parse succeeds — `strptime` accepts 1-digit fields. -/
theorem instant_from_string_strict_counterexample :
    specStrictFormat "2021-6-15T12:00:00.000000Z" = false
    ∧ datetime_from_str "2021-6-15T12:00:00.000000Z"
        = some { year := 2021, month := 6, day := 15, hour := 12, minute := 0,
                 second := 0, microsecond := 0, utc := true } :=
  ⟨rfl, rfl⟩

/-- Claim C5 (amended): `datetime_from_str` succeeds exactly when the input
is accepted by `strptime`'s lenient reading of `%Y-%m-%dT%H:%M:%S.%fZ` —
4-digit year; month, day, hour, minute, second of 1 or 2 digits within the
regex ranges (2-digit seconds up to 61); a day that may also be
space-padded (`" 5"`); 1–6 fraction digits; literal `T` and `Z` matched
case-insensitively — and the matched components survive the `datetime`
constructor's validation. On success the instant is tagged UTC; on any
mismatch the call fails with a parse error and nothing partial is returned.
The exact characterization is stated for all-ASCII inputs, where the
embedding of the digit class is exact (`\d` compiled without `re.ASCII`
additionally admits non-ASCII Unicode decimal digits, outside this model's
scope). -/
theorem instant_from_string_amended :
    (∀ (s : String) (i : Instant), datetime_from_str s = some i → i.utc = true)
    ∧ (∀ s : String, s.data.all isAsciiChar = true →
        ((datetime_from_str s).isSome = true ↔ LenientFormatSpec s))
    ∧ datetime_from_str "2021-06- 5T12:00:00.000000Z"
        = some { year := 2021, month := 6, day := 5, hour := 12, minute := 0,
                 second := 0, microsecond := 0, utc := true } := by
  refine ⟨?_, ?_, rfl⟩
  · intro s i h
    unfold datetime_from_str at h
    obtain ⟨f, hf, h⟩ := Option.bind_eq_some.mp h
    by_cases hv : validDatetime f.1 f.2.1 f.2.2.1 f.2.2.2.1 f.2.2.2.2.1
        f.2.2.2.2.2.1 f.2.2.2.2.2.2 = true
    · rw [if_pos hv] at h
      cases h
      rfl
    · rw [if_neg hv] at h
      exact Option.noConfusion h
  · intro s hascii
    constructor
    · intro hsome
      obtain ⟨i, hi⟩ := Option.isSome_iff_exists.mp hsome
      unfold datetime_from_str at hi
      obtain ⟨f, hf, hi⟩ := Option.bind_eq_some.mp hi
      obtain ⟨f₁, f₂, f₃, f₄, f₅, f₆, f₇⟩ := f
      have hv : validDatetime f₁ f₂ f₃ f₄ f₅ f₆ f₇ = true := by
        by_contra hnv
        rw [if_neg hnv] at hi
        exact Option.noConfusion hi
      obtain ⟨ys, msl, dsl, hsl, misl, ssl, fsl, tc, zc, hseq, hylen, hydig,
        hms, hds, hhs, hmis, hss, hf1, hf6, hfdig, htc, hzc,
        hy, hmo, hd, hh', hmi, hs, hus⟩ :=
        strptimeFields_sound s.data f₁ f₂ f₃ f₄ f₅ f₆ f₇ hf
      exact ⟨ys, msl, dsl, hsl, misl, ssl, fsl, tc, zc, hseq, hylen, hydig,
        hms, hds, hhs, hmis, hss, hf1, hf6, hfdig, htc, hzc,
        by rw [hy, hmo, hd, hh', hmi, hs, hus]; exact hv⟩
    · intro hspec
      obtain ⟨ys, msl, dsl, hsl, misl, ssl, fsl, tc, zc, hseq, hylen, hydig,
        hms, hds, hhs, hmis, hss, hf1, hf6, hfdig, htc, hzc, hvalid⟩ := hspec
      have hparse := strptimeFields_complete ys msl dsl hsl misl ssl fsl tc zc
        hylen hydig hms hds hhs hmis hss hf1 hf6 hfdig htc hzc
      unfold datetime_from_str
      rw [hseq, hparse, Option.some_bind', if_pos hvalid]
      rfl

/-- Witness for the amended C5, at the lenient all-ASCII input
`"2021-6-15T12:00:00.000000Z"`: the UTC-tagging statement with its equation
hypothesis discharged, and the exact characterization with its ASCII
hypothesis discharged. -/
theorem instant_from_string_amended_witness :
    (datetime_from_str "2021-6-15T12:00:00.000000Z"
      = some { year := 2021, month := 6, day := 15, hour := 12, minute := 0,
               second := 0, microsecond := 0, utc := true }
    ∧ ({ year := 2021, month := 6, day := 15, hour := 12, minute := 0,
         second := 0, microsecond := 0, utc := true } : Instant).utc = true)
    ∧ ("2021-6-15T12:00:00.000000Z".data.all isAsciiChar = true
    ∧ ((datetime_from_str "2021-6-15T12:00:00.000000Z").isSome = true
        ↔ LenientFormatSpec "2021-6-15T12:00:00.000000Z")) :=
  ⟨⟨rfl,
    instant_from_string_amended.1 "2021-6-15T12:00:00.000000Z"
      { year := 2021, month := 6, day := 15, hour := 12, minute := 0,
        second := 0, microsecond := 0, utc := true } rfl⟩,
   ⟨by decide,
    instant_from_string_amended.2.1 "2021-6-15T12:00:00.000000Z" (by decide)⟩⟩

end Berserk
